import Mathlib

/-!
Shallow embedding of the backend-selection core of the read/write-split
router (`rwsplit_select_backends.cc`).  Machine doubles are modelled by
exact rationals (`ℚ`), with `WithTop ℚ` standing for scores that may be
the `DBL_MAX` sentinel; C++ pointers to backends are modelled by a
numeric identity field, and pointer comparison by comparison of that
field.
-/

/-- The monitor-provided server record (`SERVER`): global statistics and
the adaptive response-time average. -/
structure SERVER where
  n_current : ℤ
  n_current_ops : ℤ
  rlag : ℤ
  response_time_average : ℚ
deriving DecidableEq

/-- The router-local server reference (`SERVER_REF`): router-local
connection count, configured weight, and the underlying server. -/
structure SERVER_REF where
  connections : ℤ
  server_weight : ℚ
  server : SERVER
deriving DecidableEq

/-- One backend (`RWBackend`).  `id` models the pointer identity of the
backend object; the Boolean fields model the state predicates read by the
selection core. -/
structure RWBackend where
  id : ℕ
  is_master : Bool
  is_slave : Bool
  is_relay : Bool
  in_use : Bool
  can_connect : Bool
  has_session_commands : Bool
  backend : SERVER_REF
deriving DecidableEq

/-- `valid_for_slave`: the server is a slave or relay, and is not the
master (pointer comparison). -/
def valid_for_slave (backend : RWBackend) (master : Option RWBackend) : Bool :=
  (backend.is_slave || backend.is_relay)
    && (match master with
        | none => true
        | some m => !(backend.id == m.id))

/-- `get_root_master`: the first backend in list order whose `is_master`
predicate holds. -/
def get_root_master (backends : List RWBackend) : Option RWBackend :=
  backends.find? (fun b => b.is_master)

/-- `get_slave_counts`: how many backends are connectable valid slaves,
and how many of those are already in use. -/
def get_slave_counts (backends : List RWBackend) (master : Option RWBackend) : ℕ × ℕ :=
  (backends.countP (fun b => b.can_connect && valid_for_slave b master),
   backends.countP (fun b => b.can_connect && valid_for_slave b master && b.in_use))

/-- The number of in-use connectable valid slaves (the second component
of `get_slave_counts`). -/
def count_valid_in_use (backends : List RWBackend) (master : Option RWBackend) : ℕ :=
  backends.countP (fun b => b.can_connect && valid_for_slave b master && b.in_use)

/-- The score inflation applied to servers that are not in use:
`(score + 5.0) * 1.5`.  The `DBL_MAX` sentinel (`⊤`) stays above every
finite score. -/
def inflate (s : WithTop ℚ) : WithTop ℚ :=
  s.map (fun q => (q + 5) * (3 / 2))

/-- The score used in the `best_score` comparison: the raw server score,
inflated when the backend is not in use. -/
def effective_score (server_score : SERVER_REF → WithTop ℚ) (b : RWBackend) : WithTop ℚ :=
  if b.in_use then server_score b.backend else inflate (server_score b.backend)

/-- The scanning loop of `best_score`: running minimum `min0` (initially
`DBL_MAX`), best position (initially the end sentinel `none`), update on
strict improvement only. -/
def best_score_aux (server_score : SERVER_REF → WithTop ℚ) :
    List RWBackend → ℕ → WithTop ℚ → Option ℕ → Option ℕ
  | [], _, _, best => best
  | b :: rest, i, min0, best =>
    let score := effective_score server_score b
    if score < min0 then best_score_aux server_score rest (i + 1) score (some i)
    else best_score_aux server_score rest (i + 1) min0 best

/-- `best_score`: index of the chosen backend, or `none` for the end
iterator. -/
def best_score (sBackends : List RWBackend) (server_score : SERVER_REF → WithTop ℚ) :
    Option ℕ :=
  best_score_aux server_score sBackends 0 ⊤ none

/-- Score of `backend_cmp_router_conn`: `(connections + 1) / server_weight`,
`DBL_MAX` when the weight is zero. -/
def server_score_router_conn (server : SERVER_REF) : WithTop ℚ :=
  if server.server_weight ≠ 0 then
    (((server.connections : ℚ) + 1) / server.server_weight : ℚ)
  else ⊤

/-- Score of `backend_cmp_global_conn`: `(n_current + 1) / server_weight`. -/
def server_score_global_conn (server : SERVER_REF) : WithTop ℚ :=
  if server.server_weight ≠ 0 then
    (((server.server.n_current : ℚ) + 1) / server.server_weight : ℚ)
  else ⊤

/-- Score of `backend_cmp_behind_master`: `rlag / server_weight`. -/
def server_score_behind_master (server : SERVER_REF) : WithTop ℚ :=
  if server.server_weight ≠ 0 then
    ((server.server.rlag : ℚ) / server.server_weight : ℚ)
  else ⊤

/-- Score of `backend_cmp_current_load`: `(n_current_ops + 1) / server_weight`. -/
def server_score_current_load (server : SERVER_REF) : WithTop ℚ :=
  if server.server_weight ≠ 0 then
    (((server.server.n_current_ops : ℚ) + 1) / server.server_weight : ℚ)
  else ⊤

/-- `backend_cmp_router_conn`. -/
def backend_cmp_router_conn (sBackends : List RWBackend) : Option ℕ :=
  best_score sBackends server_score_router_conn

/-- `backend_cmp_global_conn`. -/
def backend_cmp_global_conn (sBackends : List RWBackend) : Option ℕ :=
  best_score sBackends server_score_global_conn

/-- `backend_cmp_behind_master`. -/
def backend_cmp_behind_master (sBackends : List RWBackend) : Option ℕ :=
  best_score sBackends server_score_behind_master

/-- `backend_cmp_current_load`. -/
def backend_cmp_current_load (sBackends : List RWBackend) : Option ℕ :=
  best_score sBackends server_score_current_load

/-- The pre-normalisation slot of one candidate in the adaptive roulette:
inverse response-time average (with `1e-7` substituted for a zero
average), cubed. -/
def raw_slot (ave : ℚ) : ℚ :=
  let s : ℚ := if ave = 0 then 1 / (1 / 10000000) else 1 / ave
  s * s * s

/-- The normalised roulette slots: floor each raw slot at
`pre_total / 197`, then divide by the new total so the slots sum to 1. -/
def adaptive_slots (aves : List ℚ) : List ℚ :=
  let pre := aves.map raw_slot
  let pre_total := pre.sum
  let slots := pre.map (fun r => max r (pre_total / 197))
  slots.map (fun s => s / slots.sum)

/-- The cumulative walk of `backend_cmp_response_time`: advance while the
ball has not been passed, returning the current index (the index reaches
the list length when the walk never passes the ball). -/
def slot_walk_loop : List ℚ → ℚ → ℚ → ℕ → ℕ
  | [], _, _, winner => winner
  | s :: rest, ball, slot_walk, winner =>
    if ball < slot_walk + s then winner
    else slot_walk_loop rest ball (slot_walk + s) (winner + 1)

/-- The adaptive winner for a list of response-time averages and a drawn
ball. -/
def adaptive_winner (aves : List ℚ) (ball : ℚ) : ℕ :=
  slot_walk_loop (adaptive_slots aves) ball 0 0

/-- `backend_cmp_response_time`, with the PRNG draw passed in as `ball`. -/
def backend_cmp_response_time (sBackends : List RWBackend) (ball : ℚ) : ℕ :=
  adaptive_winner (sBackends.map (fun b => b.backend.server.response_time_average)) ball

/-- The priority assigned by `find_best_backend`: 1 for idle read-capable
servers, 13 for busy read-capable servers, 2 otherwise. -/
def priority_of (masters_accepts_reads : Bool) (b : RWBackend) : ℕ :=
  let is_busy := b.in_use && b.has_session_commands
  let acts_slave := b.is_slave || (b.is_master && masters_accepts_reads)
  if acts_slave then (if !is_busy then 1 else 13) else 2

/-- The best (lowest) priority over the backend list, starting from
`INT_MAX`. -/
def best_priority_of (backends : List RWBackend) (masters_accepts_reads : Bool) : ℕ :=
  backends.foldl (fun acc b => min acc (priority_of masters_accepts_reads b)) 2147483647

/-- The bucket of backends holding the best priority, in list order
(the `priority_map[best_priority]` vector). -/
def best_bucket (backends : List RWBackend) (masters_accepts_reads : Bool) : List RWBackend :=
  backends.filter (fun b => priority_of masters_accepts_reads b == best_priority_of backends masters_accepts_reads)

/-- `find_best_backend`: run the configured selection on the best-priority
bucket, then locate the winner by identity in the original list.  The
selection returns an index; an index at or past the bucket length models
the end iterator, whose dereference the C++ code does not guard
(modelled as `none`). -/
def find_best_backend (backends : List RWBackend) (select : List RWBackend → ℕ)
    (masters_accepts_reads : Bool) : Option RWBackend :=
  if h : select (best_bucket backends masters_accepts_reads)
      < (best_bucket backends masters_accepts_reads).length then
    backends.find? (fun b => b.id ==
      ((best_bucket backends masters_accepts_reads).get
        ⟨select (best_bucket backends masters_accepts_reads), h⟩).id)
  else none

/-- The master-failure modes of the router configuration. -/
inductive failure_mode
  | RW_FAIL_INSTANTLY
  | RW_FAIL_ON_WRITE
  | RW_ERROR_ON_WRITE
deriving DecidableEq

/-- The connection type argument of `select_connect_backend_servers`. -/
inductive connection_type
  | ALL
  | SLAVE
deriving DecidableEq

/-- `!master || !master->can_connect()` is the negation of this test. -/
def master_usable (master : Option RWBackend) : Bool :=
  match master with
  | none => false
  | some m => m.can_connect

/-- Modelled from the spec: `RWBackend::connect` is not part of the
selection source; per the spec's backend state machine, a successful
connect moves the backend from `idle` to `in_use` and a failed connect
leaves it unchanged.  `set_in_use backends i` records a successful
connect of the backend whose pointer identity is `i` (all aliases of
that pointer observe the mutation). -/
def set_in_use (backends : List RWBackend) (i : ℕ) : List RWBackend :=
  backends.map (fun b => if b.id = i then { b with in_use := true } else b)

/-- `sescmd_list && sescmd_list->size()`: the session-command list is
present and non-empty.  The list itself is modelled by its size,
`none` being the null pointer. -/
def sescmd_replay (sescmd_list : Option ℕ) : Bool :=
  match sescmd_list with
  | none => false
  | some n => n != 0

/-- The master-connection scan of `select_connect_backend_servers` when
`type == ALL`: walk the list; at the first backend that can connect and
is the master, attempt the connect and stop.  Returns the identity of
the attempted backend and the connect outcome, or `none` when no
attempt is made. -/
def master_connect_result (connectOk : ℕ → Bool) (master : Option RWBackend) :
    List RWBackend → Option (ℕ × Bool)
  | [] => none
  | b :: rest =>
    if b.can_connect && (match master with
        | some m => b.id == m.id
        | none => false) then
      some (b.id, connectOk b.id)
    else master_connect_result connectOk master rest

/-- The master-connection attempt made by the call, `none` when
`type == SLAVE` or no attempt happens. -/
def scbs_mres (connectOk : ℕ → Bool) (type : connection_type)
    (master : Option RWBackend) (backends : List RWBackend) : Option (ℕ × Bool) :=
  if type = connection_type.ALL then master_connect_result connectOk master backends
  else none

/-- The backend list after the master-connection phase. -/
def scbs_backends1 (connectOk : ℕ → Bool) (type : connection_type)
    (master : Option RWBackend) (backends : List RWBackend) : List RWBackend :=
  match scbs_mres connectOk type master backends with
  | some (i, true) => set_in_use backends i
  | _ => backends

/-- The slave candidate set: backends not in use, able to connect, and
valid as slaves of the given master. -/
def slave_candidates (backends : List RWBackend) (master : Option RWBackend) :
    List RWBackend :=
  backends.filter (fun b => !b.in_use && b.can_connect && valid_for_slave b master)

/-- The observable outcome of the slave top-up loop. -/
structure TopUpOut where
  backends : List RWBackend
  slaves_connected : ℕ
  expected_responses : Option ℤ
  attempts : List ℕ
deriving DecidableEq

/-- The slave top-up loop of `select_connect_backend_servers`: while the
quota is unmet and candidates remain, run the configured selection,
stop on the end sentinel, otherwise attempt a connect on the chosen
candidate (bumping the expected-response counter on success when the
session-command list is non-empty) and erase the candidate.
`attempts` logs the identity of every backend offered to `connect`. -/
def topUpLoop (selectFct : List RWBackend → ℕ) (connectOk : ℕ → Bool)
    (sescmd_list : Option ℕ) (max_nslaves : ℤ) (backends : List RWBackend)
    (candidates : List RWBackend) (slaves_connected : ℕ)
    (expected_responses : Option ℤ) (attempts : List ℕ) : TopUpOut :=
  if (slaves_connected : ℤ) < max_nslaves ∧ candidates ≠ [] then
    let i := selectFct candidates
    if h : i < candidates.length then
      let backend := candidates.get ⟨i, h⟩
      let ok := connectOk backend.id
      topUpLoop selectFct connectOk sescmd_list max_nslaves
        (if ok then set_in_use backends backend.id else backends)
        (candidates.eraseIdx i)
        (if ok then slaves_connected + 1 else slaves_connected)
        (if ok && sescmd_replay sescmd_list then expected_responses.map (fun e => e + 1)
         else expected_responses)
        (attempts ++ [backend.id])
    else ⟨backends, slaves_connected, expected_responses, attempts⟩
  else ⟨backends, slaves_connected, expected_responses, attempts⟩
termination_by candidates.length
decreasing_by
  simp only [List.length_eraseIdx]
  split
  · omega
  · omega

/-- The observable outcome of one `select_connect_backend_servers` call:
the returned Boolean, the final backend states, the value written to
`*current_master` (`none` when not written), the final
`*expected_responses` (carried through from the entry value), the
master connect attempt, and the identities offered to `connect` as
slave candidates. -/
structure SCBSResult where
  ret : Bool
  backends : List RWBackend
  current_master : Option ℕ
  expected_responses : Option ℤ
  master_attempt : Option ℕ
  slave_attempts : List ℕ
deriving DecidableEq

/-- `RWSplit::select_connect_backend_servers`.  `max_nslaves` is the
value of `max_slave_count()` (the configured `max_slave_connections`),
`selectFct` the configured `backend_select_fct`, and `connectOk` the
outcome of `connect` per backend identity. -/
def select_connect_backend_servers (mode : failure_mode) (max_nslaves : ℤ)
    (selectFct : List RWBackend → ℕ) (connectOk : ℕ → Bool)
    (backends : List RWBackend) (sescmd_list : Option ℕ)
    (expected0 : Option ℤ) (type : connection_type) : SCBSResult :=
  let master := get_root_master backends
  if master_usable master = false ∧ mode = failure_mode.RW_FAIL_INSTANTLY then
    ⟨false, backends, none, expected0, none, []⟩
  else
    let mres := scbs_mres connectOk type master backends
    let backends1 := scbs_backends1 connectOk type master backends
    let current_master := match mres with
      | some (i, true) => some i
      | _ => none
    let slaves_connected := (get_slave_counts backends1 master).2
    let candidates := slave_candidates backends1 master
    let out := topUpLoop selectFct connectOk sescmd_list max_nslaves backends1 candidates
      slaves_connected expected0 []
    ⟨true, out.backends, current_master, out.expected_responses,
     mres.map (fun p => p.1), out.attempts⟩

/-! ### Helper lemmas about the state update and the candidate set -/

theorem set_in_use_map_id (backends : List RWBackend) (i : ℕ) :
    (set_in_use backends i).map RWBackend.id = backends.map RWBackend.id := by
  induction backends with
  | nil => rfl
  | cons b rest ih =>
    simp only [set_in_use, List.map_cons, List.map_map] at ih ⊢
    by_cases hb : b.id = i
    · simp [hb, ih]
    · simp [hb, ih]

theorem length_set_in_use (backends : List RWBackend) (i : ℕ) :
    (set_in_use backends i).length = backends.length := by
  simp [set_in_use]

theorem mem_set_in_use_of_ne {c : RWBackend} {backends : List RWBackend} {i : ℕ}
    (hc : c ∈ backends) (hne : c.id ≠ i) : c ∈ set_in_use backends i := by
  have : (if c.id = i then { c with in_use := true } else c) ∈ set_in_use backends i :=
    List.mem_map_of_mem _ hc
  rwa [if_neg hne] at this

theorem countP_set_in_use_of_irrelevant (p : RWBackend → Bool) (backends : List RWBackend)
    (i : ℕ) (h : ∀ b ∈ backends, b.id = i → p { b with in_use := true } = p b) :
    (set_in_use backends i).countP p = backends.countP p := by
  unfold set_in_use
  rw [List.countP_map]
  refine List.countP_congr ?_
  intro b hb
  by_cases hbi : b.id = i
  · simp only [Function.comp_apply, if_pos hbi, h b hb hbi]
  · simp only [Function.comp_apply, if_neg hbi]

theorem countP_set_in_use_succ (p : RWBackend → Bool) {backends : List RWBackend}
    {b : RWBackend} (hN : (backends.map RWBackend.id).Nodup) (hb : b ∈ backends)
    (hpf : p b = false) (hpt : p { b with in_use := true } = true) :
    (set_in_use backends b.id).countP p = backends.countP p + 1 := by
  induction backends with
  | nil => cases hb
  | cons a rest ih =>
    simp only [List.map_cons, List.nodup_cons] at hN
    rcases List.mem_cons.mp hb with hba | hbr
    · subst hba
      have hrest : ∀ c ∈ rest, (if c.id = b.id then { c with in_use := true } else c) = c := by
        intro c hc
        have : c.id ≠ b.id := fun hid => hN.1 (hid ▸ List.mem_map_of_mem RWBackend.id hc)
        rw [if_neg this]
      have h1 : set_in_use (b :: rest) b.id = { b with in_use := true } :: rest := by
        unfold set_in_use
        rw [List.map_cons, if_pos rfl, List.map_congr_left hrest]
        simp
      rw [h1, List.countP_cons, List.countP_cons, hpt, hpf]
      simp
    · have hab : a.id ≠ b.id := by
        intro hid
        exact hN.1 (hid ▸ List.mem_map_of_mem RWBackend.id hbr)
      simp only [set_in_use, List.map_cons, if_neg hab]
      rw [List.countP_cons, List.countP_cons]
      have := ih hN.2 hbr
      unfold set_in_use at this
      omega

theorem eraseIdx_id_ne {l : List RWBackend} {i : ℕ} (h : i < l.length)
    (hN : (l.map RWBackend.id).Nodup) :
    ∀ c ∈ l.eraseIdx i, c.id ≠ (l.get ⟨i, h⟩).id := by
  induction l generalizing i with
  | nil => simp at h
  | cons a rest ih =>
    simp only [List.map_cons, List.nodup_cons] at hN
    match i with
    | 0 =>
      intro c hc hcid
      exact hN.1 (hcid ▸ List.mem_map_of_mem RWBackend.id hc)
    | j + 1 =>
      intro c hc
      have hj : j < rest.length := by simpa using h
      rcases List.mem_cons.mp hc with hca | hcr
      · subst hca
        intro hcid
        exact hN.1 (hcid ▸ List.mem_map_of_mem RWBackend.id (List.get_mem rest j hj))
      · exact ih hj hN.2 c hcr

theorem master_connect_result_some {connectOk : ℕ → Bool} {master : Option RWBackend}
    {backends : List RWBackend} {i : ℕ} {flag : Bool}
    (h : master_connect_result connectOk master backends = some (i, flag)) :
    ∃ m, master = some m ∧ i = m.id ∧ flag = connectOk m.id := by
  induction backends with
  | nil => simp [master_connect_result] at h
  | cons b rest ih =>
    rw [master_connect_result.eq_def] at h
    dsimp only at h
    split at h
    next hcond =>
      rcases master with _ | m
      · simp at hcond
      · simp only [Bool.and_eq_true, beq_iff_eq] at hcond
        simp only [Option.some.injEq, Prod.mk.injEq] at h
        refine ⟨m, rfl, ?_, ?_⟩
        · omega
        · rw [← h.2, hcond.2]
    next hcond => exact ih h

theorem master_usable_false_iff (backends : List RWBackend) :
    master_usable (get_root_master backends) = false ↔
      (get_root_master backends = none ∨
        ∃ m, get_root_master backends = some m ∧ m.can_connect = false) := by
  rcases hm : get_root_master backends with _ | m
  · simp [master_usable]
  · simp only [master_usable]
    constructor
    · intro h
      exact Or.inr ⟨m, rfl, h⟩
    · rintro (h | ⟨m', hm', hc⟩)
      · cases h
      · cases hm'
        exact hc

/-! ### C1: the master-failure gate -/

/-- A concrete master backend that cannot connect (drained). -/
def drainedMaster : RWBackend :=
  ⟨7, true, false, false, false, false, false, ⟨0, 1, ⟨0, 0, 0, 0⟩⟩⟩

/-- C1: `select_connect_backend_servers` returns `false` exactly when
(no backend is a master, or the first master cannot connect) and the
failure mode is `FAIL_INSTANTLY`; on that path no connect is attempted
and the backend states are unchanged; in every other case the call
returns `true`. -/
theorem select_connect_gate_spec (mode : failure_mode) (max_nslaves : ℤ)
    (selectFct : List RWBackend → ℕ) (connectOk : ℕ → Bool)
    (backends : List RWBackend) (sescmd_list : Option ℕ)
    (expected0 : Option ℤ) (type : connection_type)
    (_hsel : ∀ l, selectFct l ≤ l.length) :
    ((select_connect_backend_servers mode max_nslaves selectFct connectOk backends
        sescmd_list expected0 type).ret = false ↔
      ((get_root_master backends = none ∨
          ∃ m, get_root_master backends = some m ∧ m.can_connect = false) ∧
        mode = failure_mode.RW_FAIL_INSTANTLY))
    ∧ ((get_root_master backends = none ∨
          ∃ m, get_root_master backends = some m ∧ m.can_connect = false) ∧
        mode = failure_mode.RW_FAIL_INSTANTLY →
        (select_connect_backend_servers mode max_nslaves selectFct connectOk backends
          sescmd_list expected0 type) =
        ⟨false, backends, none, expected0, none, []⟩) := by
  by_cases hg : master_usable (get_root_master backends) = false ∧
      mode = failure_mode.RW_FAIL_INSTANTLY
  · constructor
    · rw [select_connect_backend_servers, if_pos hg]
      simp only [true_iff]
      exact ⟨(master_usable_false_iff backends).mp hg.1, hg.2⟩
    · intro _
      rw [select_connect_backend_servers, if_pos hg]
  · have hg' : ¬ ((get_root_master backends = none ∨
        ∃ m, get_root_master backends = some m ∧ m.can_connect = false) ∧
        mode = failure_mode.RW_FAIL_INSTANTLY) := by
      intro hc
      exact hg ⟨(master_usable_false_iff backends).mpr hc.1, hc.2⟩
    constructor
    · rw [select_connect_backend_servers, if_neg hg]
      simpa using hg'
    · intro hc
      exact absurd hc hg'

/-- Witness for C1 at a concrete failing input: one unconnectable
master under `FAIL_INSTANTLY`. -/
theorem select_connect_gate_witness :
    ((get_root_master [drainedMaster] = none ∨
        ∃ m, get_root_master [drainedMaster] = some m ∧ m.can_connect = false) ∧
      failure_mode.RW_FAIL_INSTANTLY = failure_mode.RW_FAIL_INSTANTLY)
    ∧ (select_connect_backend_servers failure_mode.RW_FAIL_INSTANTLY 2 (fun _ => 0)
        (fun _ => true) [drainedMaster] none none connection_type.ALL) =
      ⟨false, [drainedMaster], none, none, none, []⟩ := by
  constructor
  · exact ⟨Or.inr ⟨drainedMaster, by decide, by decide⟩, rfl⟩
  · exact (select_connect_gate_spec failure_mode.RW_FAIL_INSTANTLY 2 (fun _ => 0)
      (fun _ => true) [drainedMaster] none none connection_type.ALL
      (fun l => Nat.zero_le _)).2
      ⟨Or.inr ⟨drainedMaster, by decide, by decide⟩, rfl⟩

/-! ### Unfolding lemmas for the top-up loop -/

theorem topUpLoop_stop (selectFct : List RWBackend → ℕ) (connectOk : ℕ → Bool)
    (sescmd_list : Option ℕ) (max_nslaves : ℤ) (backends candidates : List RWBackend)
    (sc : ℕ) (exp : Option ℤ) (att : List ℕ)
    (h : ¬ ((sc : ℤ) < max_nslaves ∧ candidates ≠ [])) :
    topUpLoop selectFct connectOk sescmd_list max_nslaves backends candidates sc exp att
      = ⟨backends, sc, exp, att⟩ := by
  rw [topUpLoop, if_neg h]

theorem topUpLoop_end (selectFct : List RWBackend → ℕ) (connectOk : ℕ → Bool)
    (sescmd_list : Option ℕ) (max_nslaves : ℤ) (backends candidates : List RWBackend)
    (sc : ℕ) (exp : Option ℤ) (att : List ℕ)
    (hguard : (sc : ℤ) < max_nslaves ∧ candidates ≠ [])
    (hi : ¬ selectFct candidates < candidates.length) :
    topUpLoop selectFct connectOk sescmd_list max_nslaves backends candidates sc exp att
      = ⟨backends, sc, exp, att⟩ := by
  rw [topUpLoop, if_pos hguard, dif_neg hi]

theorem topUpLoop_step (selectFct : List RWBackend → ℕ) (connectOk : ℕ → Bool)
    (sescmd_list : Option ℕ) (max_nslaves : ℤ) (backends candidates : List RWBackend)
    (sc : ℕ) (exp : Option ℤ) (att : List ℕ)
    (hguard : (sc : ℤ) < max_nslaves ∧ candidates ≠ [])
    (hi : selectFct candidates < candidates.length) :
    topUpLoop selectFct connectOk sescmd_list max_nslaves backends candidates sc exp att
      = topUpLoop selectFct connectOk sescmd_list max_nslaves
          (if connectOk (candidates.get ⟨selectFct candidates, hi⟩).id then
            set_in_use backends (candidates.get ⟨selectFct candidates, hi⟩).id
           else backends)
          (candidates.eraseIdx (selectFct candidates))
          (if connectOk (candidates.get ⟨selectFct candidates, hi⟩).id then sc + 1 else sc)
          (if connectOk (candidates.get ⟨selectFct candidates, hi⟩).id
              && sescmd_replay sescmd_list then
            exp.map (fun e => e + 1)
           else exp)
          (att ++ [(candidates.get ⟨selectFct candidates, hi⟩).id]) := by
  rw [topUpLoop, if_pos hguard, dif_pos hi]

theorem expected_map_zero (exp : Option ℤ) (c : Prop) [Decidable c] :
    (if c then exp.map (fun e => e + ((0 : ℕ) : ℤ)) else exp) = exp := by
  rcases exp with _ | e
  · split <;> rfl
  · split <;> simp

/-- The accounting invariant of the top-up loop: the attempts appended by
the loop are drawn without repetition from the candidate set, the
slave-connection counter advances by exactly the number of successful
attempts, and the expected-response counter advances by the same number
exactly when a non-empty session-command list is present. -/
theorem topUpLoop_attempts_spec (selectFct : List RWBackend → ℕ) (connectOk : ℕ → Bool)
    (sescmd_list : Option ℕ) (max_nslaves : ℤ) :
    ∀ (n : ℕ) (candidates backends : List RWBackend) (sc : ℕ) (exp : Option ℤ)
      (att : List ℕ), candidates.length ≤ n →
    ∃ newA : List ℕ,
      (topUpLoop selectFct connectOk sescmd_list max_nslaves backends candidates
          sc exp att).attempts = att ++ newA
      ∧ newA.length ≤ candidates.length
      ∧ (∀ x ∈ newA, x ∈ candidates.map RWBackend.id)
      ∧ ((candidates.map RWBackend.id).Nodup → newA.Nodup)
      ∧ (topUpLoop selectFct connectOk sescmd_list max_nslaves backends candidates
          sc exp att).slaves_connected = sc + newA.countP (fun x => connectOk x)
      ∧ (topUpLoop selectFct connectOk sescmd_list max_nslaves backends candidates
          sc exp att).expected_responses =
          (if sescmd_replay sescmd_list then
            exp.map (fun e => e + (newA.countP (fun x => connectOk x) : ℤ))
           else exp) := by
  intro n
  induction n with
  | zero =>
    intro candidates backends sc exp att hlen
    have hnil : candidates = [] := List.eq_nil_of_length_eq_zero (Nat.le_zero.mp hlen)
    subst hnil
    have hstop := topUpLoop_stop selectFct connectOk sescmd_list max_nslaves backends []
      sc exp att (by simp)
    refine ⟨[], ?_, ?_, ?_, ?_, ?_, ?_⟩ <;> simp [hstop, expected_map_zero]
  | succ n ih =>
    intro candidates backends sc exp att hlen
    by_cases hguard : (sc : ℤ) < max_nslaves ∧ candidates ≠ []
    · by_cases hi : selectFct candidates < candidates.length
      · rw [topUpLoop_step selectFct connectOk sescmd_list max_nslaves backends candidates
          sc exp att hguard hi]
        have hlen' : (candidates.eraseIdx (selectFct candidates)).length ≤ n := by
          rw [List.length_eraseIdx, if_pos hi]
          omega
        obtain ⟨newA', ha, hl, hm, hnd, hsc, hexp⟩ := ih
          (candidates.eraseIdx (selectFct candidates)) _ _ _ _ hlen'
        have hsub : List.Sublist
            ((candidates.eraseIdx (selectFct candidates)).map RWBackend.id)
            (candidates.map RWBackend.id) :=
          (List.eraseIdx_sublist candidates (selectFct candidates)).map RWBackend.id
        refine ⟨(candidates.get ⟨selectFct candidates, hi⟩).id :: newA', ?_, ?_, ?_, ?_,
          ?_, ?_⟩
        · rw [ha, List.append_assoc]
          rfl
        · have hle : (candidates.eraseIdx (selectFct candidates)).length
              = candidates.length - 1 := by
            rw [List.length_eraseIdx, if_pos hi]
          simp only [List.length_cons]
          omega
        · intro x hx
          rcases List.mem_cons.mp hx with hxb | hx'
          · subst hxb
            exact List.mem_map_of_mem RWBackend.id (List.get_mem candidates _ hi)
          · exact hsub.subset (hm x hx')
        · intro hN
          have hN' : ((candidates.eraseIdx (selectFct candidates)).map RWBackend.id).Nodup :=
            hN.sublist hsub
          refine List.nodup_cons.mpr ⟨?_, hnd hN'⟩
          intro hbmem
          obtain ⟨c, hc, hcid⟩ :=
            List.mem_map.mp (hm (candidates.get ⟨selectFct candidates, hi⟩).id hbmem)
          exact eraseIdx_id_ne hi hN c hc hcid
        · by_cases hok : connectOk (candidates.get ⟨selectFct candidates, hi⟩).id = true
          · rw [hsc, if_pos hok, List.countP_cons_of_pos _ _ (by simpa using hok)]
            omega
          · rw [hsc, if_neg hok, List.countP_cons_of_neg _ _ (by simpa using hok)]
        · rw [hexp]
          by_cases hrep : sescmd_replay sescmd_list = true
          · by_cases hok : connectOk (candidates.get ⟨selectFct candidates, hi⟩).id = true
            · have hc2 : List.countP (fun x => connectOk x)
                  ((candidates.get ⟨selectFct candidates, hi⟩).id :: newA')
                  = List.countP (fun x => connectOk x) newA' + 1 :=
                List.countP_cons_of_pos _ _ (by simpa using hok)
              rw [if_pos hrep, if_pos hrep, if_pos (by rw [Bool.and_eq_true]; exact ⟨hok, hrep⟩), hc2]
              rcases exp with _ | e
              · rfl
              · simp only [Option.map_some']
                congr 1
                push_cast
                ring
            · have hc2 : List.countP (fun x => connectOk x)
                  ((candidates.get ⟨selectFct candidates, hi⟩).id :: newA')
                  = List.countP (fun x => connectOk x) newA' :=
                List.countP_cons_of_neg _ _ (by simpa using hok)
              rw [if_pos hrep, if_pos hrep, if_neg (by rw [Bool.and_eq_true]; exact fun hc => hok hc.1), hc2]
          · have hrep' : sescmd_replay sescmd_list = false := by
              simpa using hrep
            simp [hrep']
      · rw [topUpLoop_end selectFct connectOk sescmd_list max_nslaves backends candidates
          sc exp att hguard hi]
        refine ⟨[], ?_, ?_, ?_, ?_, ?_, ?_⟩ <;> simp [expected_map_zero]
    · rw [topUpLoop_stop selectFct connectOk sescmd_list max_nslaves backends candidates
        sc exp att hguard]
      refine ⟨[], ?_, ?_, ?_, ?_, ?_, ?_⟩ <;> simp [expected_map_zero]

theorem valid_for_slave_set_in_use (b : RWBackend) (master : Option RWBackend) :
    valid_for_slave { b with in_use := true } master = valid_for_slave b master := rfl

theorem can_connect_set_in_use (b : RWBackend) :
    ({ b with in_use := true } : RWBackend).can_connect = b.can_connect := rfl

theorem in_use_set_in_use (b : RWBackend) :
    ({ b with in_use := true } : RWBackend).in_use = true := rfl

/-- The quota invariant of the top-up loop: when every candidate is an
unused, connectable, valid slave present in the (duplicate-free) backend
list, the number of in-use valid slaves tracks the `slaves_connected`
counter, and the counter never exceeds the quota it respected on entry. -/
theorem topUpLoop_count_invariant (selectFct : List RWBackend → ℕ) (connectOk : ℕ → Bool)
    (sescmd_list : Option ℕ) (max_nslaves : ℤ) (master : Option RWBackend) :
    ∀ (n : ℕ) (candidates backends : List RWBackend) (sc : ℕ) (exp : Option ℤ)
      (att : List ℕ), candidates.length ≤ n →
    (backends.map RWBackend.id).Nodup →
    (candidates.map RWBackend.id).Nodup →
    (∀ c ∈ candidates, c ∈ backends ∧ c.in_use = false ∧ c.can_connect = true ∧
      valid_for_slave c master = true) →
    count_valid_in_use backends master = sc →
    count_valid_in_use (topUpLoop selectFct connectOk sescmd_list max_nslaves backends
        candidates sc exp att).backends master
      = (topUpLoop selectFct connectOk sescmd_list max_nslaves backends
        candidates sc exp att).slaves_connected
    ∧ ((sc : ℤ) ≤ max_nslaves →
      (((topUpLoop selectFct connectOk sescmd_list max_nslaves backends
        candidates sc exp att).slaves_connected : ℤ) ≤ max_nslaves)) := by
  intro n
  induction n with
  | zero =>
    intro candidates backends sc exp att hlen hNb hNc hcand hsc
    have hnil : candidates = [] := List.eq_nil_of_length_eq_zero (Nat.le_zero.mp hlen)
    subst hnil
    rw [topUpLoop_stop selectFct connectOk sescmd_list max_nslaves backends []
      sc exp att (by simp)]
    exact ⟨hsc, fun h => h⟩
  | succ n ih =>
    intro candidates backends sc exp att hlen hNb hNc hcand hsc
    by_cases hguard : (sc : ℤ) < max_nslaves ∧ candidates ≠ []
    · by_cases hi : selectFct candidates < candidates.length
      · rw [topUpLoop_step selectFct connectOk sescmd_list max_nslaves backends candidates
          sc exp att hguard hi]
        have hlen' : (candidates.eraseIdx (selectFct candidates)).length ≤ n := by
          rw [List.length_eraseIdx, if_pos hi]
          omega
        have hsub : List.Sublist
            ((candidates.eraseIdx (selectFct candidates)).map RWBackend.id)
            (candidates.map RWBackend.id) :=
          (List.eraseIdx_sublist candidates (selectFct candidates)).map RWBackend.id
        obtain ⟨hbmem, hbuse, hbcc, hbvalid⟩ :=
          hcand (candidates.get ⟨selectFct candidates, hi⟩) (List.get_mem candidates _ hi)
        have hNc' : ((candidates.eraseIdx (selectFct candidates)).map RWBackend.id).Nodup :=
          hNc.sublist hsub
        have hcand' : ∀ c ∈ candidates.eraseIdx (selectFct candidates),
            c ∈ (if connectOk (candidates.get ⟨selectFct candidates, hi⟩).id = true then
              set_in_use backends (candidates.get ⟨selectFct candidates, hi⟩).id
             else backends) ∧ c.in_use = false ∧ c.can_connect = true ∧
            valid_for_slave c master = true := by
          intro c hc
          obtain ⟨hcm, hcu, hccc, hcv⟩ :=
            hcand c ((List.eraseIdx_sublist candidates (selectFct candidates)).subset hc)
          refine ⟨?_, hcu, hccc, hcv⟩
          split
          · exact mem_set_in_use_of_ne hcm (eraseIdx_id_ne hi hNc c hc)
          · exact hcm
        have hNb' : (((if connectOk (candidates.get ⟨selectFct candidates, hi⟩).id = true then
            set_in_use backends (candidates.get ⟨selectFct candidates, hi⟩).id
           else backends)).map RWBackend.id).Nodup := by
          split
          · rw [set_in_use_map_id]
            exact hNb
          · exact hNb
        have hsc' : count_valid_in_use
            (if connectOk (candidates.get ⟨selectFct candidates, hi⟩).id = true then
              set_in_use backends (candidates.get ⟨selectFct candidates, hi⟩).id
             else backends) master
            = (if connectOk (candidates.get ⟨selectFct candidates, hi⟩).id = true then
              sc + 1 else sc) := by
          split
          · unfold count_valid_in_use at hsc ⊢
            rw [countP_set_in_use_succ _ hNb hbmem (by simp only [hbuse, Bool.and_false])
              (by
                simp only [valid_for_slave_set_in_use, can_connect_set_in_use,
                  in_use_set_in_use]
                simp only [hbcc, hbvalid, Bool.and_true, Bool.and_self]), hsc]
          · exact hsc
        obtain ⟨hcount, hbound⟩ := ih (candidates.eraseIdx (selectFct candidates)) _ _ _ _
          hlen' hNb' hNc' hcand' hsc'
        refine ⟨hcount, fun _ => hbound ?_⟩
        split
        · push_cast
          omega
        · omega
      · rw [topUpLoop_end selectFct connectOk sescmd_list max_nslaves backends candidates
          sc exp att hguard hi]
        exact ⟨hsc, fun h => h⟩
    · rw [topUpLoop_stop selectFct connectOk sescmd_list max_nslaves backends candidates
        sc exp att hguard]
      exact ⟨hsc, fun h => h⟩

/-! ### Bridging lemmas for the non-gate path -/

theorem scbs_unfold (mode : failure_mode) (max_nslaves : ℤ)
    (selectFct : List RWBackend → ℕ) (connectOk : ℕ → Bool)
    (backends : List RWBackend) (sescmd_list : Option ℕ) (expected0 : Option ℤ)
    (type : connection_type)
    (h : ¬ (master_usable (get_root_master backends) = false ∧
      mode = failure_mode.RW_FAIL_INSTANTLY)) :
    select_connect_backend_servers mode max_nslaves selectFct connectOk backends
      sescmd_list expected0 type =
    ⟨true,
     (topUpLoop selectFct connectOk sescmd_list max_nslaves
       (scbs_backends1 connectOk type (get_root_master backends) backends)
       (slave_candidates (scbs_backends1 connectOk type (get_root_master backends) backends)
         (get_root_master backends))
       (get_slave_counts (scbs_backends1 connectOk type (get_root_master backends) backends)
         (get_root_master backends)).2 expected0 []).backends,
     (match scbs_mres connectOk type (get_root_master backends) backends with
      | some (i, true) => some i
      | _ => none),
     (topUpLoop selectFct connectOk sescmd_list max_nslaves
       (scbs_backends1 connectOk type (get_root_master backends) backends)
       (slave_candidates (scbs_backends1 connectOk type (get_root_master backends) backends)
         (get_root_master backends))
       (get_slave_counts (scbs_backends1 connectOk type (get_root_master backends) backends)
         (get_root_master backends)).2 expected0 []).expected_responses,
     (scbs_mres connectOk type (get_root_master backends) backends).map (fun p => p.1),
     (topUpLoop selectFct connectOk sescmd_list max_nslaves
       (scbs_backends1 connectOk type (get_root_master backends) backends)
       (slave_candidates (scbs_backends1 connectOk type (get_root_master backends) backends)
         (get_root_master backends))
       (get_slave_counts (scbs_backends1 connectOk type (get_root_master backends) backends)
         (get_root_master backends)).2 expected0 []).attempts⟩ := by
  rw [select_connect_backend_servers, if_neg h]

theorem scbs_backends1_map_id (connectOk : ℕ → Bool) (type : connection_type)
    (master : Option RWBackend) (backends : List RWBackend) :
    (scbs_backends1 connectOk type master backends).map RWBackend.id
      = backends.map RWBackend.id := by
  unfold scbs_backends1
  rcases hm : scbs_mres connectOk type master backends with _ | ⟨i, flag⟩
  · rfl
  · cases flag
    · rfl
    · exact set_in_use_map_id backends i

theorem slave_candidates_spec (backends : List RWBackend) (master : Option RWBackend) :
    ∀ c ∈ slave_candidates backends master,
      c ∈ backends ∧ c.in_use = false ∧ c.can_connect = true ∧
      valid_for_slave c master = true := by
  intro c hc
  obtain ⟨hmem, hp⟩ := List.mem_filter.mp hc
  simp only [Bool.and_eq_true, Bool.not_eq_true'] at hp
  exact ⟨hmem, hp.1.1, hp.1.2, hp.2⟩

theorem slave_candidates_nodup {backends : List RWBackend} (master : Option RWBackend)
    (hN : (backends.map RWBackend.id).Nodup) :
    ((slave_candidates backends master).map RWBackend.id).Nodup :=
  hN.sublist ((List.filter_sublist backends).map RWBackend.id)

theorem valid_for_slave_self {b m : RWBackend} (h : b.id = m.id) :
    valid_for_slave b (some m) = false := by
  unfold valid_for_slave
  simp [h]

theorem count_valid_in_use_backends1 (connectOk : ℕ → Bool) (type : connection_type)
    (master : Option RWBackend) (backends : List RWBackend) :
    count_valid_in_use (scbs_backends1 connectOk type master backends) master
      = count_valid_in_use backends master := by
  unfold scbs_backends1
  rcases hm : scbs_mres connectOk type master backends with _ | ⟨i, flag⟩
  · rfl
  · cases flag
    · rfl
    · obtain ⟨m, hmm, hid⟩ : ∃ m, master = some m ∧ i = m.id := by
        unfold scbs_mres at hm
        split at hm
        · obtain ⟨m, h1, h2, _⟩ := master_connect_result_some hm
          exact ⟨m, h1, h2⟩
        · cases hm
      subst hmm hid
      unfold count_valid_in_use
      refine countP_set_in_use_of_irrelevant _ backends m.id ?_
      intro b _ hbid
      have h1 : valid_for_slave b (some m) = false := valid_for_slave_self hbid
      have h2 : valid_for_slave { b with in_use := true } (some m) = false := by
        rw [valid_for_slave_set_in_use]
        exact h1
      simp only [can_connect_set_in_use, h1, h2, Bool.and_false, Bool.false_and]

/-! ### C2, C5, C6: quota, expected-response accounting, no double pick -/

/-- A selection function that always returns the first position. -/
def selectFirst : List RWBackend → ℕ := fun _ => 0

theorem selectFirst_le : ∀ l : List RWBackend, selectFirst l ≤ l.length :=
  fun _ => Nat.zero_le _

/-- A concrete idle connectable slave. -/
def slaveA : RWBackend := ⟨1, false, true, false, false, true, false, ⟨2, 1, ⟨0, 0, 0, 0⟩⟩⟩

/-- Another concrete idle connectable slave. -/
def slaveB : RWBackend := ⟨2, false, true, false, false, true, false, ⟨1, 1, ⟨0, 0, 0, 0⟩⟩⟩

/-- C2: when the entry state has at most `max_slave_connections` in-use
connectable valid slaves of the root master, the same bound holds after
`select_connect_backend_servers`. -/
theorem select_connect_quota_spec (mode : failure_mode) (max_nslaves : ℤ)
    (selectFct : List RWBackend → ℕ) (connectOk : ℕ → Bool)
    (backends : List RWBackend) (sescmd_list : Option ℕ) (expected0 : Option ℤ)
    (type : connection_type)
    (_hsel : ∀ l, selectFct l ≤ l.length)
    (hN : (backends.map RWBackend.id).Nodup)
    (hentry : (count_valid_in_use backends (get_root_master backends) : ℤ) ≤ max_nslaves) :
    (count_valid_in_use (select_connect_backend_servers mode max_nslaves selectFct connectOk
        backends sescmd_list expected0 type).backends (get_root_master backends) : ℤ)
      ≤ max_nslaves := by
  by_cases hg : master_usable (get_root_master backends) = false ∧
      mode = failure_mode.RW_FAIL_INSTANTLY
  · rw [select_connect_backend_servers, if_pos hg]
    exact hentry
  · rw [scbs_unfold mode max_nslaves selectFct connectOk backends sescmd_list expected0
      type hg]
    have hNb1 : ((scbs_backends1 connectOk type (get_root_master backends) backends).map
        RWBackend.id).Nodup := by
      rw [scbs_backends1_map_id]
      exact hN
    obtain ⟨hcount, hbound⟩ := topUpLoop_count_invariant selectFct connectOk sescmd_list
      max_nslaves (get_root_master backends)
      (slave_candidates (scbs_backends1 connectOk type (get_root_master backends) backends)
        (get_root_master backends)).length
      (slave_candidates (scbs_backends1 connectOk type (get_root_master backends) backends)
        (get_root_master backends))
      (scbs_backends1 connectOk type (get_root_master backends) backends)
      (get_slave_counts (scbs_backends1 connectOk type (get_root_master backends) backends)
        (get_root_master backends)).2
      expected0 [] le_rfl hNb1
      (slave_candidates_nodup (get_root_master backends) hNb1)
      (slave_candidates_spec _ _) rfl
    rw [hcount]
    refine hbound ?_
    have heq : count_valid_in_use (scbs_backends1 connectOk type (get_root_master backends)
        backends) (get_root_master backends)
        = count_valid_in_use backends (get_root_master backends) :=
      count_valid_in_use_backends1 connectOk type (get_root_master backends) backends
    have : (get_slave_counts (scbs_backends1 connectOk type (get_root_master backends)
        backends) (get_root_master backends)).2
        = count_valid_in_use backends (get_root_master backends) := heq
    rw [this]
    exact hentry

/-- Witness for C2 on a concrete two-slave pool with quota 1. -/
theorem select_connect_quota_witness :
    (([slaveA, slaveB].map RWBackend.id).Nodup
      ∧ (count_valid_in_use [slaveA, slaveB] (get_root_master [slaveA, slaveB]) : ℤ) ≤ 1)
    ∧ (count_valid_in_use (select_connect_backend_servers failure_mode.RW_FAIL_ON_WRITE 1
        selectFirst (fun _ => true) [slaveA, slaveB] none none
        connection_type.SLAVE).backends (get_root_master [slaveA, slaveB]) : ℤ) ≤ 1 :=
  ⟨⟨by decide, by decide⟩,
   select_connect_quota_spec failure_mode.RW_FAIL_ON_WRITE 1 selectFirst (fun _ => true)
     [slaveA, slaveB] none none connection_type.SLAVE selectFirst_le (by decide) (by decide)⟩

/-- C5: with a non-empty session-command list and an expected-response
counter entering at 0, the counter leaves equal to the number of slaves
whose connect succeeded in this call; with a null or empty list the
counter is untouched. -/
theorem select_connect_expected_spec (mode : failure_mode) (max_nslaves : ℤ)
    (selectFct : List RWBackend → ℕ) (connectOk : ℕ → Bool)
    (backends : List RWBackend) (sescmd_list : Option ℕ) (expected0 : Option ℤ)
    (type : connection_type)
    (_hsel : ∀ l, selectFct l ≤ l.length) :
    (∀ nsc : ℕ, sescmd_list = some nsc → nsc ≠ 0 → expected0 = some 0 →
      (select_connect_backend_servers mode max_nslaves selectFct connectOk backends
        sescmd_list expected0 type).expected_responses
        = some (((select_connect_backend_servers mode max_nslaves selectFct connectOk backends
            sescmd_list expected0 type).slave_attempts.countP (fun x => connectOk x) : ℤ)))
    ∧ (sescmd_replay sescmd_list = false →
      (select_connect_backend_servers mode max_nslaves selectFct connectOk backends
        sescmd_list expected0 type).expected_responses = expected0) := by
  by_cases hg : master_usable (get_root_master backends) = false ∧
      mode = failure_mode.RW_FAIL_INSTANTLY
  · rw [select_connect_backend_servers, if_pos hg]
    constructor
    · intro nsc h1 h2 h3
      rw [h3]
      simp
    · intro _
      rfl
  · rw [scbs_unfold mode max_nslaves selectFct connectOk backends sescmd_list expected0
      type hg]
    obtain ⟨newA, ha, _, _, _, _, hexp⟩ := topUpLoop_attempts_spec selectFct connectOk
      sescmd_list max_nslaves
      (slave_candidates (scbs_backends1 connectOk type (get_root_master backends) backends)
        (get_root_master backends)).length
      (slave_candidates (scbs_backends1 connectOk type (get_root_master backends) backends)
        (get_root_master backends))
      (scbs_backends1 connectOk type (get_root_master backends) backends)
      (get_slave_counts (scbs_backends1 connectOk type (get_root_master backends) backends)
        (get_root_master backends)).2
      expected0 [] le_rfl
    rw [List.nil_append] at ha
    constructor
    · intro nsc h1 h2 h3
      subst h3
      have hrep : sescmd_replay sescmd_list = true := by
        rw [h1]
        unfold sescmd_replay
        simpa using h2
      rw [ha, hexp, if_pos hrep]
      simp
    · intro hrep
      simp only [hexp, hrep]
      simp

/-- Witness for C5 on a concrete two-slave pool with a three-command
replay list. -/
theorem select_connect_expected_witness :
    (select_connect_backend_servers failure_mode.RW_FAIL_ON_WRITE 1 selectFirst
      (fun _ => true) [slaveA, slaveB] (some 3) (some 0)
      connection_type.SLAVE).expected_responses
    = some (((select_connect_backend_servers failure_mode.RW_FAIL_ON_WRITE 1 selectFirst
        (fun _ => true) [slaveA, slaveB] (some 3) (some 0)
        connection_type.SLAVE).slave_attempts.countP (fun x => (fun _ => true) x) : ℤ)) :=
  (select_connect_expected_spec failure_mode.RW_FAIL_ON_WRITE 1 selectFirst (fun _ => true)
    [slaveA, slaveB] (some 3) (some 0) connection_type.SLAVE selectFirst_le).1
    3 rfl (by decide) rfl

/-- C6: within one call no backend is offered to `connect` twice as a
slave candidate, and the number of slave connect attempts is bounded by
the initial candidate-set size. -/
theorem select_connect_no_double_pick (mode : failure_mode) (max_nslaves : ℤ)
    (selectFct : List RWBackend → ℕ) (connectOk : ℕ → Bool)
    (backends : List RWBackend) (sescmd_list : Option ℕ) (expected0 : Option ℤ)
    (type : connection_type)
    (_hsel : ∀ l, selectFct l ≤ l.length)
    (hN : (backends.map RWBackend.id).Nodup) :
    (select_connect_backend_servers mode max_nslaves selectFct connectOk backends
      sescmd_list expected0 type).slave_attempts.Nodup
    ∧ (select_connect_backend_servers mode max_nslaves selectFct connectOk backends
        sescmd_list expected0 type).slave_attempts.length
      ≤ (slave_candidates (scbs_backends1 connectOk type (get_root_master backends) backends)
          (get_root_master backends)).length := by
  by_cases hg : master_usable (get_root_master backends) = false ∧
      mode = failure_mode.RW_FAIL_INSTANTLY
  · rw [select_connect_backend_servers, if_pos hg]
    exact ⟨List.nodup_nil, Nat.zero_le _⟩
  · rw [scbs_unfold mode max_nslaves selectFct connectOk backends sescmd_list expected0
      type hg]
    have hNb1 : ((scbs_backends1 connectOk type (get_root_master backends) backends).map
        RWBackend.id).Nodup := by
      rw [scbs_backends1_map_id]
      exact hN
    obtain ⟨newA, ha, hl, _, hnd, _, _⟩ := topUpLoop_attempts_spec selectFct connectOk
      sescmd_list max_nslaves
      (slave_candidates (scbs_backends1 connectOk type (get_root_master backends) backends)
        (get_root_master backends)).length
      (slave_candidates (scbs_backends1 connectOk type (get_root_master backends) backends)
        (get_root_master backends))
      (scbs_backends1 connectOk type (get_root_master backends) backends)
      (get_slave_counts (scbs_backends1 connectOk type (get_root_master backends) backends)
        (get_root_master backends)).2
      expected0 [] le_rfl
    rw [List.nil_append] at ha
    refine ⟨?_, ?_⟩
    · rw [ha]
      exact hnd (slave_candidates_nodup (get_root_master backends) hNb1)
    · rw [ha]
      exact hl

/-- Witness for C6 on a concrete two-slave pool. -/
theorem select_connect_no_double_pick_witness :
    (([slaveA, slaveB].map RWBackend.id).Nodup
      ∧ (select_connect_backend_servers failure_mode.RW_FAIL_ON_WRITE 2 selectFirst
          (fun _ => true) [slaveA, slaveB] none none
          connection_type.SLAVE).slave_attempts.Nodup) :=
  ⟨by decide,
   (select_connect_no_double_pick failure_mode.RW_FAIL_ON_WRITE 2 selectFirst (fun _ => true)
     [slaveA, slaveB] none none connection_type.SLAVE selectFirst_le (by decide)).1⟩

/-! ### C10: `max_slave_count() == 0` -/

/-- Counterexample to C10 as stated: a call with `max_slave_count() = 0`
can still return `false`, namely when the master-failure gate triggers
(here: no master at all under `FAIL_INSTANTLY`). -/
theorem select_connect_max_zero_counterexample :
    (select_connect_backend_servers failure_mode.RW_FAIL_INSTANTLY 0 selectFirst
      (fun _ => true) [] none none connection_type.SLAVE).ret = false := by
  decide

/-- C10 (amended): when `max_slave_count()` is 0 and the master-failure
gate does not trigger, the top-up loop body never runs: no slave connect
is attempted, the expected-response counter is untouched, only the root
master's `in_use` state may change (and only for `type = ALL`), and the
call returns `true`. -/
theorem select_connect_max_zero_spec (mode : failure_mode)
    (selectFct : List RWBackend → ℕ) (connectOk : ℕ → Bool)
    (backends : List RWBackend) (sescmd_list : Option ℕ) (expected0 : Option ℤ)
    (type : connection_type)
    (_hsel : ∀ l, selectFct l ≤ l.length)
    (hg : ¬ (master_usable (get_root_master backends) = false ∧
      mode = failure_mode.RW_FAIL_INSTANTLY)) :
    (select_connect_backend_servers mode 0 selectFct connectOk backends
      sescmd_list expected0 type).ret = true
    ∧ (select_connect_backend_servers mode 0 selectFct connectOk backends
      sescmd_list expected0 type).slave_attempts = []
    ∧ (select_connect_backend_servers mode 0 selectFct connectOk backends
      sescmd_list expected0 type).expected_responses = expected0
    ∧ ((select_connect_backend_servers mode 0 selectFct connectOk backends
        sescmd_list expected0 type).backends = backends
      ∨ (type = connection_type.ALL ∧ ∃ m, get_root_master backends = some m ∧
        (select_connect_backend_servers mode 0 selectFct connectOk backends
          sescmd_list expected0 type).backends = set_in_use backends m.id)) := by
  rw [scbs_unfold mode 0 selectFct connectOk backends sescmd_list expected0 type hg]
  have hstop := topUpLoop_stop selectFct connectOk sescmd_list 0
    (scbs_backends1 connectOk type (get_root_master backends) backends)
    (slave_candidates (scbs_backends1 connectOk type (get_root_master backends) backends)
      (get_root_master backends))
    (get_slave_counts (scbs_backends1 connectOk type (get_root_master backends) backends)
      (get_root_master backends)).2
    expected0 []
    (by
      rintro ⟨hlt, -⟩
      omega)
  rw [hstop]
  refine ⟨rfl, rfl, rfl, ?_⟩
  unfold scbs_backends1
  rcases hm : scbs_mres connectOk type (get_root_master backends) backends with _ | ⟨i, flag⟩
  · exact Or.inl rfl
  · cases flag
    · exact Or.inl rfl
    · have htype : type = connection_type.ALL := by
        unfold scbs_mres at hm
        split at hm
        · assumption
        · cases hm
      have hmcr : master_connect_result connectOk (get_root_master backends) backends
          = some (i, true) := by
        unfold scbs_mres at hm
        rw [if_pos htype] at hm
        exact hm
      obtain ⟨m, hmm, hid, _⟩ := master_connect_result_some hmcr
      refine Or.inr ⟨htype, m, hmm, ?_⟩
      rw [hid]

/-- Witness for the amended C10 on a concrete one-slave pool without a
master, under `FAIL_ON_WRITE`. -/
theorem select_connect_max_zero_witness :
    (select_connect_backend_servers failure_mode.RW_FAIL_ON_WRITE 0 selectFirst
      (fun _ => true) [slaveA] (some 2) (some 0) connection_type.SLAVE).ret = true
    ∧ (select_connect_backend_servers failure_mode.RW_FAIL_ON_WRITE 0 selectFirst
      (fun _ => true) [slaveA] (some 2) (some 0) connection_type.SLAVE).slave_attempts = [] :=
  ⟨(select_connect_max_zero_spec failure_mode.RW_FAIL_ON_WRITE selectFirst (fun _ => true)
      [slaveA] (some 2) (some 0) connection_type.SLAVE selectFirst_le (by decide)).1,
   (select_connect_max_zero_spec failure_mode.RW_FAIL_ON_WRITE selectFirst (fun _ => true)
      [slaveA] (some 2) (some 0) connection_type.SLAVE selectFirst_le (by decide)).2.1⟩

/-! ### Characterisation of `best_score` -/

/-- Complete characterisation of the `best_score` scan: either no element
beats the incoming minimum and the incoming best survives, or the scan
returns the first position attaining the minimum of the effective
scores below the incoming minimum. -/
theorem best_score_aux_spec (f : SERVER_REF → WithTop ℚ) :
    ∀ (l : List RWBackend) (k : ℕ) (m : WithTop ℚ) (best : Option ℕ),
    (best_score_aux f l k m best = best ∧
      ∀ j (hj : j < l.length), m ≤ effective_score f (l.get ⟨j, hj⟩))
    ∨ (∃ j, ∃ hj : j < l.length,
        best_score_aux f l k m best = some (k + j)
        ∧ effective_score f (l.get ⟨j, hj⟩) < m
        ∧ (∀ i (hi : i < l.length),
            effective_score f (l.get ⟨j, hj⟩) ≤ effective_score f (l.get ⟨i, hi⟩))
        ∧ (∀ i (hi : i < l.length), i < j →
            effective_score f (l.get ⟨j, hj⟩) < effective_score f (l.get ⟨i, hi⟩))) := by
  intro l
  induction l with
  | nil =>
    intro k m best
    left
    exact ⟨rfl, fun j hj => absurd hj (Nat.not_lt_zero j)⟩
  | cons b rest ih =>
    intro k m best
    by_cases hlt : effective_score f b < m
    · have hstep : best_score_aux f (b :: rest) k m best
          = best_score_aux f rest (k + 1) (effective_score f b) (some k) := by
        rw [best_score_aux]
        simp only [if_pos hlt]
      rcases ih (k + 1) (effective_score f b) (some k) with ⟨heq, hall⟩ |
        ⟨j, hj, heq, hlt2, hle, hstrict⟩
      · right
        refine ⟨0, Nat.succ_pos rest.length, ?_, ?_, ?_, ?_⟩
        · rw [hstep, heq, Nat.add_zero]
        · exact hlt
        · intro i hi
          rcases i with _ | i
          · exact le_refl _
          · exact hall i (by simpa using hi)
        · intro i _ hi0
          exact absurd hi0 (Nat.not_lt_zero i)
      · right
        have hj' : j + 1 < (b :: rest).length := by
          simpa using Nat.succ_lt_succ hj
        refine ⟨j + 1, hj', ?_, ?_, ?_, ?_⟩
        · rw [hstep, heq]
          congr 1
          omega
        · exact hlt2.trans hlt
        · intro i hi
          rcases i with _ | i
          · exact le_of_lt hlt2
          · exact hle i (by simpa using hi)
        · intro i hi hij
          rcases i with _ | i
          · exact hlt2
          · exact hstrict i (by simpa using hi) (by omega)
    · have hge : m ≤ effective_score f b := not_lt.mp hlt
      have hstep : best_score_aux f (b :: rest) k m best
          = best_score_aux f rest (k + 1) m best := by
        rw [best_score_aux]
        simp only [if_neg hlt]
      rcases ih (k + 1) m best with ⟨heq, hall⟩ | ⟨j, hj, heq, hlt2, hle, hstrict⟩
      · left
        refine ⟨by rw [hstep, heq], ?_⟩
        intro j hj
        rcases j with _ | j
        · exact hge
        · exact hall j (by simpa using hj)
      · right
        have hj' : j + 1 < (b :: rest).length := by
          simpa using Nat.succ_lt_succ hj
        refine ⟨j + 1, hj', ?_, ?_, ?_, ?_⟩
        · rw [hstep, heq]
          congr 1
          omega
        · exact hlt2
        · intro i hi
          rcases i with _ | i
          · exact le_of_lt (lt_of_lt_of_le hlt2 hge)
          · exact hle i (by simpa using hi)
        · intro i hi hij
          rcases i with _ | i
          · exact lt_of_lt_of_le hlt2 hge
          · exact hstrict i (by simpa using hi) (by omega)

/-- When `best_score` returns a position, that position holds a finite
effective score that is minimal over the list, strictly below every
earlier score (first-lowest tie break). -/
theorem best_score_some_spec {l : List RWBackend} {f : SERVER_REF → WithTop ℚ} {i : ℕ}
    (h : best_score l f = some i) :
    ∃ hi : i < l.length,
      effective_score f (l.get ⟨i, hi⟩) < ⊤
      ∧ (∀ j (hj : j < l.length),
          effective_score f (l.get ⟨i, hi⟩) ≤ effective_score f (l.get ⟨j, hj⟩))
      ∧ (∀ j (hj : j < l.length), j < i →
          effective_score f (l.get ⟨i, hi⟩) < effective_score f (l.get ⟨j, hj⟩)) := by
  rcases best_score_aux_spec f l 0 ⊤ none with ⟨heq, _⟩ | ⟨j, hj, heq, hlt, hle, hstrict⟩
  · rw [best_score, heq] at h
    cases h
  · rw [best_score, heq] at h
    have hji : j = i := by
      injection h with h2
      omega
    subst hji
    exact ⟨hj, hlt, hle, hstrict⟩

theorem inflate_top : inflate ⊤ = ⊤ := rfl

/-- A backend whose server weight is zero carries the `DBL_MAX` sentinel
score and is never the position returned by `best_score` for a scoring
function that maps zero weight to the sentinel. -/
theorem best_score_ne_zero_weight {l : List RWBackend} {f : SERVER_REF → WithTop ℚ}
    (hf : ∀ s : SERVER_REF, s.server_weight = 0 → f s = ⊤) {i : ℕ}
    (h : best_score l f = some i) :
    ∃ hi : i < l.length, (l.get ⟨i, hi⟩).backend.server_weight ≠ 0 := by
  obtain ⟨hi, hlt, _, _⟩ := best_score_some_spec h
  refine ⟨hi, fun hw => ?_⟩
  have htop := hf _ hw
  unfold effective_score at hlt
  rw [htop] at hlt
  split at hlt
  · exact absurd hlt (lt_irrefl ⊤)
  · rw [inflate_top] at hlt
    exact absurd hlt (lt_irrefl ⊤)

/-! ### C7, C8: scoring formulas, zero-weight exclusion, inflation -/

/-- C7: for positive weight, the four non-adaptive scoring functions
compute exactly the spec's formulas; zero weight is scored with the
`DBL_MAX` sentinel and such a backend is never the position chosen by
`best_score` under any of the four policies. -/
theorem scoring_spec :
    (∀ s : SERVER_REF, 0 < s.server_weight →
      server_score_router_conn s = (((s.connections : ℚ) + 1) / s.server_weight : ℚ)
      ∧ server_score_global_conn s = (((s.server.n_current : ℚ) + 1) / s.server_weight : ℚ)
      ∧ server_score_behind_master s = ((s.server.rlag : ℚ) / s.server_weight : ℚ)
      ∧ server_score_current_load s
          = (((s.server.n_current_ops : ℚ) + 1) / s.server_weight : ℚ))
    ∧ (∀ s : SERVER_REF, s.server_weight = 0 →
      server_score_router_conn s = ⊤ ∧ server_score_global_conn s = ⊤
      ∧ server_score_behind_master s = ⊤ ∧ server_score_current_load s = ⊤)
    ∧ (∀ (l : List RWBackend) (i : ℕ), backend_cmp_router_conn l = some i →
        ∃ hi : i < l.length, (l.get ⟨i, hi⟩).backend.server_weight ≠ 0)
    ∧ (∀ (l : List RWBackend) (i : ℕ), backend_cmp_global_conn l = some i →
        ∃ hi : i < l.length, (l.get ⟨i, hi⟩).backend.server_weight ≠ 0)
    ∧ (∀ (l : List RWBackend) (i : ℕ), backend_cmp_behind_master l = some i →
        ∃ hi : i < l.length, (l.get ⟨i, hi⟩).backend.server_weight ≠ 0)
    ∧ (∀ (l : List RWBackend) (i : ℕ), backend_cmp_current_load l = some i →
        ∃ hi : i < l.length, (l.get ⟨i, hi⟩).backend.server_weight ≠ 0) := by
  refine ⟨?_, ?_, ?_, ?_, ?_, ?_⟩
  · intro s hw
    have hne : s.server_weight ≠ 0 := ne_of_gt hw
    exact ⟨if_pos hne, if_pos hne, if_pos hne, if_pos hne⟩
  · intro s hw
    have hne : ¬ s.server_weight ≠ 0 := by simp [hw]
    exact ⟨if_neg hne, if_neg hne, if_neg hne, if_neg hne⟩
  · intro l i h
    exact best_score_ne_zero_weight
      (fun s hw => if_neg (by simp [hw] : ¬ s.server_weight ≠ 0)) h
  · intro l i h
    exact best_score_ne_zero_weight
      (fun s hw => if_neg (by simp [hw] : ¬ s.server_weight ≠ 0)) h
  · intro l i h
    exact best_score_ne_zero_weight
      (fun s hw => if_neg (by simp [hw] : ¬ s.server_weight ≠ 0)) h
  · intro l i h
    exact best_score_ne_zero_weight
      (fun s hw => if_neg (by simp [hw] : ¬ s.server_weight ≠ 0)) h

/-- Witness for C7 at a concrete weight-one server. -/
theorem scoring_witness :
    (0 : ℚ) < slaveA.backend.server_weight
    ∧ server_score_router_conn slaveA.backend
      = (((slaveA.backend.connections : ℚ) + 1) / slaveA.backend.server_weight : ℚ) :=
  ⟨by decide, (scoring_spec.1 slaveA.backend (by decide)).1⟩

/-- C8: `best_score` compares the raw score for in-use backends and the
inflated score `(score + 5) * 1.5` for unused ones, the empty list maps
to the end sentinel, a returned position is the first one attaining the
minimal effective score, and the adaptive policy reads only the
response-time averages (so applies no inflation for any candidate). -/
theorem best_score_inflation_spec :
    (∀ q : ℚ, inflate (q : WithTop ℚ) = (((q + 5) * (3 / 2) : ℚ) : WithTop ℚ))
    ∧ (∀ (f : SERVER_REF → WithTop ℚ) (b : RWBackend), b.in_use = false →
        effective_score f b = inflate (f b.backend))
    ∧ (∀ (f : SERVER_REF → WithTop ℚ) (b : RWBackend), b.in_use = true →
        effective_score f b = f b.backend)
    ∧ (∀ f : SERVER_REF → WithTop ℚ, best_score [] f = none)
    ∧ (∀ (f : SERVER_REF → WithTop ℚ) (l : List RWBackend) (i : ℕ),
        best_score l f = some i →
        ∃ hi : i < l.length,
          effective_score f (l.get ⟨i, hi⟩) < ⊤
          ∧ (∀ j (hj : j < l.length),
              effective_score f (l.get ⟨i, hi⟩) ≤ effective_score f (l.get ⟨j, hj⟩))
          ∧ (∀ j (hj : j < l.length), j < i →
              effective_score f (l.get ⟨i, hi⟩) < effective_score f (l.get ⟨j, hj⟩)))
    ∧ (∀ (l1 l2 : List RWBackend) (ball : ℚ),
        l1.map (fun b => b.backend.server.response_time_average)
          = l2.map (fun b => b.backend.server.response_time_average) →
        backend_cmp_response_time l1 ball = backend_cmp_response_time l2 ball) := by
  refine ⟨?_, ?_, ?_, ?_, ?_, ?_⟩
  · intro q
    rfl
  · intro f b h
    unfold effective_score
    rw [h]
    simp
  · intro f b h
    unfold effective_score
    rw [h]
    simp
  · intro f
    rfl
  · intro f l i h
    exact best_score_some_spec h
  · intro l1 l2 ball h
    unfold backend_cmp_response_time
    rw [h]

/-- Witness for C8 at a concrete unused backend under the
router-connections score. -/
theorem best_score_inflation_witness :
    slaveA.in_use = false
    ∧ effective_score server_score_router_conn slaveA
      = inflate (server_score_router_conn slaveA.backend) :=
  ⟨rfl, best_score_inflation_spec.2.1 server_score_router_conn slaveA rfl⟩

/-! ### C4, C9: priority bucketing and the partiality of `find_best_backend` -/

theorem priority_of_cases (mar : Bool) (b : RWBackend) :
    priority_of mar b = 1 ∨ priority_of mar b = 13 ∨ priority_of mar b = 2 := by
  unfold priority_of
  by_cases h1 : (b.is_slave || (b.is_master && mar)) = true <;>
    by_cases h2 : (!(b.in_use && b.has_session_commands)) = true <;>
    simp [h1, h2]

theorem priority_of_pos (mar : Bool) (b : RWBackend) : 1 ≤ priority_of mar b := by
  rcases priority_of_cases mar b with h | h | h <;> omega

theorem foldl_min_le (mar : Bool) :
    ∀ (l : List RWBackend) (init : ℕ),
      (l.foldl (fun acc b => min acc (priority_of mar b)) init ≤ init)
      ∧ ∀ x ∈ l, l.foldl (fun acc b => min acc (priority_of mar b)) init
          ≤ priority_of mar x := by
  intro l
  induction l with
  | nil =>
    intro init
    exact ⟨le_refl _, fun x hx => absurd hx (List.not_mem_nil x)⟩
  | cons b rest ih =>
    intro init
    constructor
    · exact le_trans (ih (min init (priority_of mar b))).1 (Nat.min_le_left _ _)
    · intro x hx
      rcases List.mem_cons.mp hx with hxb | hxr
      · subst hxb
        exact le_trans (ih (min init (priority_of mar x))).1 (Nat.min_le_right _ _)
      · exact (ih (min init (priority_of mar b))).2 x hxr

theorem le_foldl_min (mar : Bool) (a : ℕ) :
    ∀ (l : List RWBackend) (init : ℕ), a ≤ init → (∀ x ∈ l, a ≤ priority_of mar x) →
      a ≤ l.foldl (fun acc b => min acc (priority_of mar b)) init := by
  intro l
  induction l with
  | nil =>
    intro init hinit _
    exact hinit
  | cons b rest ih =>
    intro init hinit hall
    exact ih (min init (priority_of mar b))
      (le_min hinit (hall b (List.mem_cons_self b rest)))
      (fun x hx => hall x (List.mem_cons_of_mem b hx))

theorem best_priority_of_eq_one {backends : List RWBackend} {mar : Bool}
    (h : ∃ b ∈ backends, priority_of mar b = 1) :
    best_priority_of backends mar = 1 := by
  obtain ⟨b, hb, hb1⟩ := h
  refine le_antisymm ?_ ?_
  · have := (foldl_min_le mar backends 2147483647).2 b hb
    rw [hb1] at this
    exact this
  · exact le_foldl_min mar 1 backends 2147483647 (by decide)
      (fun x _ => priority_of_pos mar x)

theorem mem_best_bucket {backends : List RWBackend} {mar : Bool} {x : RWBackend}
    (h : x ∈ best_bucket backends mar) :
    x ∈ backends ∧ priority_of mar x = best_priority_of backends mar := by
  obtain ⟨hm, hp⟩ := List.mem_filter.mp h
  exact ⟨hm, by simpa using hp⟩

/-- C4: on a duplicate-free backend list, any backend returned by
`find_best_backend` lies in the original list and holds the best
(lowest) priority; in particular when some backend has priority 1, no
priority-2 or priority-13 backend is ever returned. -/
theorem find_best_backend_priority_spec (backends : List RWBackend)
    (select : List RWBackend → ℕ) (mar : Bool) (r : RWBackend)
    (hN : (backends.map RWBackend.id).Nodup)
    (h : find_best_backend backends select mar = some r) :
    r ∈ backends
    ∧ priority_of mar r = best_priority_of backends mar
    ∧ ((∃ b ∈ backends, priority_of mar b = 1) → priority_of mar r = 1) := by
  unfold find_best_backend at h
  by_cases hlt : select (best_bucket backends mar) < (best_bucket backends mar).length
  case neg =>
    rw [dif_neg hlt] at h
    cases h
  case pos =>
    rw [dif_pos hlt] at h
    have hrid := List.find?_some h
    have hrmem : r ∈ backends := List.mem_of_find?_eq_some h
    have hwmem := List.get_mem (best_bucket backends mar)
      (select (best_bucket backends mar)) hlt
    obtain ⟨hwback, hwprio⟩ := mem_best_bucket hwmem
    have hrw : r = (best_bucket backends mar).get
        ⟨select (best_bucket backends mar), hlt⟩ :=
      List.inj_on_of_nodup_map hN hrmem hwback (by simpa using hrid)
    refine ⟨hrmem, ?_, ?_⟩
    · rw [hrw]
      exact hwprio
    · intro hex
      rw [hrw, hwprio]
      exact best_priority_of_eq_one hex

/-- Witness for C4 on a concrete pool where `slaveA` (priority 1) and a
busy slave (priority 13) compete. -/
theorem find_best_backend_priority_witness :
    (([slaveA, ⟨3, false, true, false, true, true, true, ⟨0, 1, ⟨0, 0, 0, 0⟩⟩⟩].map
        RWBackend.id).Nodup
      ∧ find_best_backend [slaveA, ⟨3, false, true, false, true, true, true,
          ⟨0, 1, ⟨0, 0, 0, 0⟩⟩⟩] selectFirst false = some slaveA)
    ∧ (slaveA ∈ [slaveA, ⟨3, false, true, false, true, true, true, ⟨0, 1, ⟨0, 0, 0, 0⟩⟩⟩]
      ∧ priority_of false slaveA
          = best_priority_of [slaveA, ⟨3, false, true, false, true, true, true,
              ⟨0, 1, ⟨0, 0, 0, 0⟩⟩⟩] false
      ∧ ((∃ b ∈ [slaveA, ⟨3, false, true, false, true, true, true, ⟨0, 1, ⟨0, 0, 0, 0⟩⟩⟩],
          priority_of false b = 1) → priority_of false slaveA = 1)) :=
  ⟨⟨by decide, by decide⟩,
   find_best_backend_priority_spec _ selectFirst false slaveA (by decide) (by decide)⟩

/-- A busy zero-weight slave: `best_score` returns the end sentinel even
though the list is non-empty. -/
def zeroWeightBusy : RWBackend := ⟨9, false, true, false, true, true, false, ⟨0, 0, ⟨0, 0, 0, 0⟩⟩⟩

/-- The configured selection for `LEAST_ROUTER_CONNECTIONS`, with the
end iterator encoded as the bucket length. -/
def selectRouterConn : List RWBackend → ℕ :=
  fun l => (backend_cmp_router_conn l).getD l.length

/-- C9: dereferencing the selection result is safe exactly under the
precondition that the selection returns a valid position in the best
bucket — then the result is an element of the original list; the
precondition can fail even on a non-empty list (a busy zero-weight
slave under the router-connections policy yields the end sentinel). -/
theorem find_best_backend_partial_spec :
    (∀ (backends : List RWBackend) (select : List RWBackend → ℕ) (mar : Bool),
      select (best_bucket backends mar) < (best_bucket backends mar).length →
      ∃ r, find_best_backend backends select mar = some r ∧ r ∈ backends)
    ∧ find_best_backend [zeroWeightBusy] selectRouterConn false = none
    ∧ [zeroWeightBusy] ≠ [] := by
  refine ⟨?_, by decide, by decide⟩
  intro backends select mar hvalid
  unfold find_best_backend
  rw [dif_pos hvalid]
  have hwmem := List.get_mem (best_bucket backends mar) (select (best_bucket backends mar))
    hvalid
  have hwback : (best_bucket backends mar).get
      ⟨select (best_bucket backends mar), hvalid⟩ ∈ backends :=
    (mem_best_bucket hwmem).1
  rcases hf : backends.find? (fun b => b.id == ((best_bucket backends mar).get
      ⟨select (best_bucket backends mar), hvalid⟩).id) with _ | r
  · exact absurd (by simp : (((best_bucket backends mar).get
      ⟨select (best_bucket backends mar), hvalid⟩).id ==
      ((best_bucket backends mar).get
        ⟨select (best_bucket backends mar), hvalid⟩).id) = true)
      (by simpa using List.find?_eq_none.mp hf _ hwback)
  · exact ⟨r, hf, List.mem_of_find?_eq_some hf⟩

/-- Witness for C9's safe direction on a concrete singleton pool. -/
theorem find_best_backend_partial_witness :
    (selectFirst (best_bucket [slaveA] false) < (best_bucket [slaveA] false).length)
    ∧ ∃ r, find_best_backend [slaveA] selectFirst false = some r ∧ r ∈ [slaveA] :=
  ⟨by decide, find_best_backend_partial_spec.1 [slaveA] selectFirst false (by decide)⟩

/-! ### C3: the adaptive roulette walk -/

theorem slot_walk_loop_shift : ∀ (l : List ℚ) (ball w : ℚ) (i : ℕ),
    slot_walk_loop l ball w i = i + slot_walk_loop l ball w 0 := by
  intro l
  induction l with
  | nil =>
    intro ball w i
    simp [slot_walk_loop]
  | cons s rest ih =>
    intro ball w i
    by_cases h : ball < w + s
    · rw [slot_walk_loop, if_pos h, slot_walk_loop, if_pos h]
      omega
    · rw [slot_walk_loop, if_neg h, slot_walk_loop, if_neg h, ih ball (w + s) (i + 1),
        ih ball (w + s) (0 + 1)]
      omega

theorem slot_walk_loop_le : ∀ (l : List ℚ) (ball w : ℚ),
    slot_walk_loop l ball w 0 ≤ l.length := by
  intro l
  induction l with
  | nil =>
    intro ball w
    simp [slot_walk_loop]
  | cons s rest ih =>
    intro ball w
    by_cases h : ball < w + s
    · rw [slot_walk_loop, if_pos h]
      simp
    · rw [slot_walk_loop, if_neg h, slot_walk_loop_shift]
      have := ih ball (w + s)
      simp only [List.length_cons]
      omega

theorem slot_walk_loop_lt : ∀ (l : List ℚ) (ball w : ℚ), l ≠ [] → ball < w + l.sum →
    slot_walk_loop l ball w 0 < l.length := by
  intro l
  induction l with
  | nil =>
    intro ball w h _
    exact absurd rfl h
  | cons s rest ih =>
    intro ball w _ hsum
    by_cases h : ball < w + s
    · rw [slot_walk_loop, if_pos h]
      simp
    · rw [slot_walk_loop, if_neg h, slot_walk_loop_shift]
      by_cases hr : rest = []
      · exfalso
        apply h
        subst hr
        simpa using hsum
      · have := ih ball (w + s) hr (by rw [List.sum_cons] at hsum; linarith)
        simp only [List.length_cons]
        omega

theorem slot_walk_loop_hit : ∀ (l : List ℚ) (ball w : ℚ),
    slot_walk_loop l ball w 0 < l.length →
    ball < w + (l.take (slot_walk_loop l ball w 0 + 1)).sum := by
  intro l
  induction l with
  | nil =>
    intro ball w h
    simp [slot_walk_loop] at h
  | cons s rest ih =>
    intro ball w hlt
    by_cases h : ball < w + s
    · rw [slot_walk_loop, if_pos h]
      simpa using h
    · rw [slot_walk_loop, if_neg h, slot_walk_loop_shift] at hlt ⊢
      have hx : slot_walk_loop rest ball (w + s) 0 < rest.length := by
        simp only [List.length_cons] at hlt
        omega
      have hrec := ih ball (w + s) hx
      have harith : 0 + 1 + slot_walk_loop rest ball (w + s) 0 + 1
          = (slot_walk_loop rest ball (w + s) 0 + 1) + 1 := by omega
      rw [harith, List.take_succ_cons, List.sum_cons]
      linarith

theorem slot_walk_loop_min : ∀ (l : List ℚ) (ball w : ℚ) (j : ℕ),
    j < slot_walk_loop l ball w 0 → w + (l.take (j + 1)).sum ≤ ball := by
  intro l
  induction l with
  | nil =>
    intro ball w j h
    simp [slot_walk_loop] at h
  | cons s rest ih =>
    intro ball w j hj
    by_cases h : ball < w + s
    · rw [slot_walk_loop, if_pos h] at hj
      exact absurd hj (Nat.not_lt_zero j)
    · rw [slot_walk_loop, if_neg h, slot_walk_loop_shift] at hj
      rcases j with _ | j
      · simpa using not_lt.mp h
      · have hj' : j < slot_walk_loop rest ball (w + s) 0 := by omega
        have := ih ball (w + s) j hj'
        rw [List.take_succ_cons, List.sum_cons]
        linarith

theorem raw_slot_pos {a : ℚ} (h : 0 ≤ a) : 0 < raw_slot a := by
  unfold raw_slot
  dsimp only
  by_cases h0 : a = 0
  · rw [if_pos h0]
    norm_num
  · rw [if_neg h0]
    have ha : 0 < a := lt_of_le_of_ne h (Ne.symm h0)
    have : 0 < 1 / a := by positivity
    positivity

theorem sum_map_div (l : List ℚ) (t : ℚ) : (l.map (fun s => s / t)).sum = l.sum / t := by
  induction l with
  | nil => simp
  | cons s rest ih => simp [ih, add_div]

theorem adaptive_slots_length (aves : List ℚ) :
    (adaptive_slots aves).length = aves.length := by
  simp [adaptive_slots]

theorem adaptive_slots_sum (aves : List ℚ) (hne : aves ≠ []) (hnn : ∀ a ∈ aves, 0 ≤ a) :
    (adaptive_slots aves).sum = 1 := by
  unfold adaptive_slots
  dsimp only
  rw [sum_map_div]
  apply div_self
  apply ne_of_gt
  apply List.sum_pos
  · intro x hx
    obtain ⟨r, hr, hrx⟩ := List.mem_map.mp hx
    obtain ⟨a, ha, har⟩ := List.mem_map.mp hr
    have hrpos : 0 < r := har ▸ raw_slot_pos (hnn a ha)
    rw [← hrx]
    exact lt_of_lt_of_le hrpos (le_max_left _ _)
  · intro hcon
    rw [List.map_eq_nil, List.map_eq_nil] at hcon
    exact hne hcon

/-- The C3 property: the winner index is in range, the cumulative sum of
normalised slot probabilities through the winner strictly exceeds the
drawn value, and every strictly earlier cumulative sum does not. -/
def RouletteSpec (sBackends : List RWBackend) (u : ℚ) : Prop :=
  backend_cmp_response_time sBackends u < sBackends.length
  ∧ u < ((adaptive_slots (sBackends.map
      (fun b => b.backend.server.response_time_average))).take
      (backend_cmp_response_time sBackends u + 1)).sum
  ∧ ∀ j < backend_cmp_response_time sBackends u,
      ((adaptive_slots (sBackends.map
        (fun b => b.backend.server.response_time_average))).take (j + 1)).sum ≤ u

/-- C3: for a non-empty candidate list with non-negative response-time
averages and a draw `u` in `[0, 1)`, the adaptive roulette returns the
smallest index whose cumulative probability strictly exceeds `u`; such
an index always exists, the probabilities summing exactly to 1 in exact
arithmetic. -/
theorem backend_cmp_response_time_spec (sBackends : List RWBackend) (u : ℚ)
    (hne : sBackends ≠ [])
    (hnn : ∀ b ∈ sBackends, 0 ≤ b.backend.server.response_time_average)
    (h0 : 0 ≤ u) (h1 : u < 1) : RouletteSpec sBackends u := by
  have hne' : sBackends.map (fun b => b.backend.server.response_time_average) ≠ [] := by
    simpa [List.map_eq_nil] using hne
  have hnn' : ∀ a ∈ sBackends.map (fun b => b.backend.server.response_time_average),
      0 ≤ a := by
    intro a ha
    obtain ⟨b, hb, hba⟩ := List.mem_map.mp ha
    exact hba ▸ hnn b hb
  have hsum := adaptive_slots_sum _ hne' hnn'
  have hlen : (adaptive_slots (sBackends.map
      (fun b => b.backend.server.response_time_average))).length = sBackends.length := by
    rw [adaptive_slots_length, List.length_map]
  have hpne : adaptive_slots (sBackends.map
      (fun b => b.backend.server.response_time_average)) ≠ [] := by
    intro hp
    apply hne
    have := hlen
    rw [hp] at this
    exact List.eq_nil_of_length_eq_zero this.symm
  have hwin : backend_cmp_response_time sBackends u
      = slot_walk_loop (adaptive_slots (sBackends.map
        (fun b => b.backend.server.response_time_average))) u 0 0 := rfl
  have hlt : slot_walk_loop (adaptive_slots (sBackends.map
      (fun b => b.backend.server.response_time_average))) u 0 0
      < (adaptive_slots (sBackends.map
        (fun b => b.backend.server.response_time_average))).length := by
    apply slot_walk_loop_lt _ _ _ hpne
    rw [hsum]
    linarith
  refine ⟨?_, ?_, ?_⟩
  · rw [hwin, ← hlen]
    exact hlt
  · rw [hwin]
    have := slot_walk_loop_hit _ u 0 hlt
    linarith
  · intro j hj
    rw [hwin] at hj
    have := slot_walk_loop_min _ u 0 j hj
    linarith

/-- Witness for C3 on a concrete one-backend pool and draw 0. -/
theorem backend_cmp_response_time_witness :
    ([slaveA] ≠ [] ∧ (∀ b ∈ [slaveA], 0 ≤ b.backend.server.response_time_average)
      ∧ (0 : ℚ) ≤ 0 ∧ (0 : ℚ) < 1)
    ∧ RouletteSpec [slaveA] 0 :=
  ⟨⟨by decide, by decide, le_refl 0, by norm_num⟩,
   backend_cmp_response_time_spec [slaveA] 0 (by decide) (by decide) (le_refl 0)
     (by norm_num)⟩
